import Mathlib

/-!
Verification development for the k-adk agent-runtime support library.

The Go sources are shallowly embedded: Go byte strings are modelled as
`List Nat` (each entry a byte value) where byte-level length matters, and as
Lean `String` where only textual identity matters; Go machine words are `Nat`
with explicit reduction modulo 2^32; Go maps are association lists; fallible
operations return `Option`/product-with-error results.  External services
(the upstream LLM wire, Redis, Postgres, the JSON codec of the standard
library) appear as explicit inputs describing their observable outcomes.
-/

namespace KAdk

/-- Reduce a natural number to a 32-bit word, as Go's `uint32` arithmetic does. -/
def w32 (n : Nat) : Nat := n % 2 ^ 32

/-- Right rotation of a 32-bit word by `k` bits. -/
def rotr32 (k n : Nat) : Nat := w32 ((n >>> k) ||| (n <<< (32 - k)))

/-- Bitwise complement of a 32-bit word. -/
def not32 (n : Nat) : Nat := n ^^^ (2 ^ 32 - 1)

/-! SHA-256, modelling Go's `crypto/sha256.Sum256` (FIPS 180-4) over byte lists. -/

/-- The SHA-256 round constants (FIPS 180-4, in decimal). -/
def sha256K : List Nat :=
  [1116352408, 1899447441, 3049323471, 3921009573, 961987163,
   1508970993, 2453635748, 2870763221, 3624381080, 310598401,
   607225278, 1426881987, 1925078388, 2162078206, 2614888103,
   3248222580, 3835390401, 4022224774, 264347078, 604807628,
   770255983, 1249150122, 1555081692, 1996064986, 2554220882,
   2821834349, 2952996808, 3210313671, 3336571891, 3584528711,
   113926993, 338241895, 666307205, 773529912, 1294757372,
   1396182291, 1695183700, 1986661051, 2177026350, 2456956037,
   2730485921, 2820302411, 3259730800, 3345764771, 3516065817,
   3600352804, 4094571909, 275423344, 430227734, 506948616,
   659060556, 883997877, 958139571, 1322822218, 1537002063,
   1747873779, 1955562222, 2024104815, 2227730452, 2361852424,
   2428436474, 2756734187, 3204031479, 3329325298]

/-- The SHA-256 working state: eight 32-bit words. -/
structure Sha256State where
  a : Nat
  b : Nat
  c : Nat
  d : Nat
  e : Nat
  f : Nat
  g : Nat
  h : Nat
deriving Repr, DecidableEq

/-- The SHA-256 initial hash value. -/
def sha256Init : Sha256State :=
  ⟨1779033703, 3144134277, 1013904242, 2773480762,
   1359893119, 2600822924, 528734635, 1541459225⟩

/-- Message-schedule sigma-0. -/
def sigmaLow0 (x : Nat) : Nat := rotr32 7 x ^^^ rotr32 18 x ^^^ (x >>> 3)

/-- Message-schedule sigma-1. -/
def sigmaLow1 (x : Nat) : Nat := rotr32 17 x ^^^ rotr32 19 x ^^^ (x >>> 10)

/-- Compression Sigma-0. -/
def sigmaHigh0 (x : Nat) : Nat := rotr32 2 x ^^^ rotr32 13 x ^^^ rotr32 22 x

/-- Compression Sigma-1. -/
def sigmaHigh1 (x : Nat) : Nat := rotr32 6 x ^^^ rotr32 11 x ^^^ rotr32 25 x

/-- The SHA-256 choose function. -/
def sha256Ch (x y z : Nat) : Nat := (x &&& y) ^^^ (not32 x &&& z)

/-- The SHA-256 majority function. -/
def sha256Maj (x y z : Nat) : Nat := (x &&& y) ^^^ (x &&& z) ^^^ (y &&& z)

/-- Extend a 16-word block by one scheduled word. -/
def sha256ExtendStep (ws : List Nat) : List Nat :=
  ws ++ [w32 (sigmaLow1 (ws.getD (ws.length - 2) 0) + ws.getD (ws.length - 7) 0 +
              sigmaLow0 (ws.getD (ws.length - 15) 0) + ws.getD (ws.length - 16) 0)]

/-- The 64-word message schedule of a 16-word block. -/
def sha256Schedule (block : List Nat) : List Nat := sha256ExtendStep^[48] block

/-- One SHA-256 compression round with combined constant-plus-schedule word input. -/
def sha256Round (s : Sha256State) (k w : Nat) : Sha256State :=
  let t1 := w32 (s.h + sigmaHigh1 s.e + sha256Ch s.e s.f s.g + k + w)
  let t2 := w32 (sigmaHigh0 s.a + sha256Maj s.a s.b s.c)
  ⟨w32 (t1 + t2), s.a, s.b, s.c, w32 (s.d + t1), s.e, s.f, s.g⟩

/-- Compress one 16-word block into the running state. -/
def sha256Compress (s : Sha256State) (block : List Nat) : Sha256State :=
  let ws := sha256Schedule block
  let t := (sha256K.zip ws).foldl (fun st p => sha256Round st p.1 p.2) s
  ⟨w32 (s.a + t.a), w32 (s.b + t.b), w32 (s.c + t.c), w32 (s.d + t.d),
   w32 (s.e + t.e), w32 (s.f + t.f), w32 (s.g + t.g), w32 (s.h + t.h)⟩

/-- Big-endian 8-byte rendering of a length-in-bits counter. -/
def be64 (n : Nat) : List Nat :=
  [n >>> 56 % 256, n >>> 48 % 256, n >>> 40 % 256, n >>> 32 % 256,
   n >>> 24 % 256, n >>> 16 % 256, n >>> 8 % 256, n % 256]

/-- Big-endian 4-byte rendering of a 32-bit word. -/
def be32 (n : Nat) : List Nat := [n >>> 24 % 256, n >>> 16 % 256, n >>> 8 % 256, n % 256]

/-- SHA-256 padding: append 0x80, zero fill to 56 mod 64, then the bit length. -/
def sha256Pad (msg : List Nat) : List Nat :=
  msg ++ [0x80] ++ List.replicate ((119 - msg.length % 64) % 64) 0 ++ be64 (8 * msg.length)

/-- Split a byte list into chunks of `k + 1` bytes (the last may be short). -/
def chunksOf (k : Nat) (l : List Nat) : List (List Nat) :=
  if h : l = [] then []
  else l.take (k + 1) :: chunksOf k (l.drop (k + 1))
termination_by l.length
decreasing_by
  simp only [List.length_drop]
  exact Nat.sub_lt (List.length_pos.mpr h) (Nat.succ_pos k)

/-- Interpret four bytes as one big-endian 32-bit word. -/
def wordOfBytes (bs : List Nat) : Nat :=
  bs.foldl (fun acc b => acc * 256 + b % 256) 0

/-- The sixteen 32-bit words of one 64-byte block. -/
def wordsOfBlock (block : List Nat) : List Nat := (chunksOf 3 block).map wordOfBytes

/-- SHA-256 of a byte list, as the 32 digest bytes. -/
def sha256 (msg : List Nat) : List Nat :=
  let blocks := (chunksOf 63 (sha256Pad msg)).map wordsOfBlock
  let s := blocks.foldl sha256Compress sha256Init
  be32 s.a ++ be32 s.b ++ be32 s.c ++ be32 s.d ++ be32 s.e ++ be32 s.f ++ be32 s.g ++ be32 s.h

/-- ASCII code of the lowercase hex digit for a nibble, as Go's `encoding/hex` emits. -/
def hexDigitByte (n : Nat) : Nat := if n < 10 then 48 + n else 87 + n

/-- Lowercase hex encoding of a byte list, as ASCII bytes (Go `hex.EncodeToString`). -/
def hexEncode (bs : List Nat) : List Nat :=
  bs.flatMap (fun b => [hexDigitByte (b >>> 4 % 16), hexDigitByte (b % 16)])

/-!
Protocol-A (OpenAI adapter) tool-call identifier normalization, from
`normalizeToolCallID` / `denormalizeToolCallID`.  Go strings are byte
strings, so identifiers are `List Nat` and `len` is the list length.
-/

/-- A Go byte string. -/
abbrev GoStr := List Nat

/-- The provider's identifier limit, `maxToolCallIDLength = 40`. -/
def maxToolCallIDLength : Nat := 40

/-- The bytes of the literal prefix `"tc_"`. -/
def tcHeader : GoStr := [116, 99, 95]

/-- The adapter's short-to-original identifier map (`Model.toolCall`), an
association list modelling the Go map; a fresh store shadows older entries
exactly as a Go map assignment overwrites. -/
structure ToolCallMap where
  entries : List (GoStr × GoStr)
deriving Repr, DecidableEq

/-- Shorten an identifier exceeding the 40-byte limit with a SHA-256 based
short form and record the short-to-original mapping (`normalizeToolCallID`). -/
def normalizeToolCallID (m : ToolCallMap) (id : GoStr) : GoStr × ToolCallMap :=
  if id.length ≤ maxToolCallIDLength then (id, m)
  else
    let shortID := tcHeader ++ (hexEncode (sha256 id)).take (maxToolCallIDLength - 3)
    (shortID, ⟨(shortID, id) :: m.entries⟩)

/-- Restore the original identifier from a shortened one (`denormalizeToolCallID`);
an unknown short form is returned unchanged. -/
def denormalizeToolCallID (m : ToolCallMap) (shortID : GoStr) : GoStr :=
  (m.entries.lookup shortID).getD shortID

/-!
Postgres persister shard routing, from `GetShardIndex`, `GetEventsTableName`,
`isPowerOfTwo`, `nextPowerOfTwo` and the shard-count normalization in
`NewClient`.  The configured shard count is a Go `int`, modelled as `Int`
(the 64-bit wrap is not modelled; shard counts sit far below that range).
-/

/-- FNV-1a 32-bit hash of a byte string, as Go's `hash/fnv.New32a`. -/
def fnv1a32 (bs : GoStr) : Nat :=
  bs.foldl (fun h b => w32 ((h ^^^ (b % 256)) * 16777619)) 2166136261

/-- Whether a configured count is a power of two (`isPowerOfTwo`).  Go computes
`n & (n-1)` on a signed int guarded by `n > 0`; under the guard the bitwise
conjunction agrees with the natural-number one. -/
def isPowerOfTwo (n : Int) : Bool := n > 0 && (n.toNat &&& (n.toNat - 1)) == 0

/-- The next power of two at or above `n`, by bit smearing (`nextPowerOfTwo`). -/
def nextPowerOfTwo (n : Int) : Int :=
  if n ≤ 1 then 1
  else
    let m0 := (n - 1).toNat
    let m1 := m0 ||| (m0 >>> 1)
    let m2 := m1 ||| (m1 >>> 2)
    let m3 := m2 ||| (m2 >>> 4)
    let m4 := m3 ||| (m3 >>> 8)
    let m5 := m4 ||| (m4 >>> 16)
    ((m5 : Int) + 1)

/-- Shard-count normalization from `NewClient`: non-positive snaps to the
default of 8, then a non-power-of-two is rounded up. -/
def normalizeShardCount (c : Int) : Int :=
  let c1 := if c ≤ 0 then 8 else c
  if isPowerOfTwo c1 then c1 else nextPowerOfTwo c1

/-- The shard count a constructed client carries, as a natural number. -/
def clientShardCount (c : Int) : Nat := (normalizeShardCount c).toNat

/-- The shard index of a user identifier (`GetShardIndex`). -/
def GetShardIndex (c : Int) (userID : GoStr) : Nat :=
  fnv1a32 userID &&& (clientShardCount c - 1)

/-- The sharded events table for a user (`GetEventsTableName`). -/
def GetEventsTableName (c : Int) (userID : GoStr) : String :=
  "session_events_" ++ toString (GetShardIndex c userID)

/-- The table `persistEventSync` targets for a session's event rows: the
persister computes `tableName := p.client.GetEventsTableName(sess.UserID())`
and runs both its next-order query and its INSERT against that table. -/
def persistEventTable (c : Int) (userID : GoStr) : String := GetEventsTableName c userID

/-!
A JSON-like value model for the loosely typed `map[string]any` data the
adapters pass around.  Scalars other than strings are collapsed into `atom`:
no claim inspects them.
-/

/-- A JSON-like Go `any` value. -/
inductive JVal where
  | str (s : String)
  | obj (entries : List (String × JVal))
  | arr (elems : List JVal)
  | atom

/-- A decoded `map[string]any`, as an association list. -/
abbrev ArgsMap := List (String × JVal)

/-- Key lookup in a JSON object, modelling Go map indexing. -/
def jLookup (m : List (String × JVal)) (k : String) : Option JVal := m.lookup k

/-!
Protocol-A inbound tool-call argument parsing, from `parseJSONArgs`.  The
standard library's `json.Unmarshal` is external, so its outcome on the raw
argument string is an explicit input: `none` models a failed decode (malformed
JSON, or JSON that is not an object), `some m` a successful decode to `m`.
-/

/-- Parse a tool-call argument string into a map, returning an empty map for an
empty string or a failed decode (`parseJSONArgs`). -/
def parseJSONArgs (argsJSON : String) (decoded : Option ArgsMap) : ArgsMap :=
  if argsJSON = "" then []
  else
    match decoded with
    | none => []
    | some m => m

/-!
Protocol-B inbound tool-use input conversion, from `convertToolInput`.  The Go
`any` input is a sum: the nil interface, an already-typed map, a raw JSON
message together with its decode outcome, or any other value together with its
marshal-then-decode outcome.
-/

/-- A Go `any` presented to `convertToolInput`. -/
inductive ToolInput where
  | noInput
  | mapInput (m : ArgsMap)
  | rawInput (bytes : String) (decoded : Option ArgsMap)
  | otherInput (marshalled : Option (String × Option ArgsMap))

/-- Convert a tool-use block input to an argument map, never failing
(`convertToolInput`). -/
def convertToolInput : ToolInput → ArgsMap
  | .noInput => []
  | .mapInput m => m
  | .rawInput _ d => d.getD []
  | .otherInput none => []
  | .otherInput (some (_, d)) => d.getD []

/-!
Protocol-A schema normalization, from `ensureObjectProperties`,
`convertToFunctionParams` and `convertSchema`.  Schema nodes are JSON objects;
the Go functions mutate `map[string]any` values in place, modelled here by
rebuilding the association list.
-/

/-- Whether a schema node's `type` entry is the string `"object"`. -/
def isObjTypeNode (m : List (String × JVal)) : Bool :=
  match jLookup m "type" with
  | some (.str t) => t == "object"
  | _ => false

mutual

/-- Ensure a schema node and everything below it carries `properties` when its
type is `"object"` (`ensureObjectProperties`); the Go code inserts the empty
map first and then recurses, which coincides with transforming the original
entries and appending the (empty, hence already normalized) fresh entry. -/
def ensureObjectProperties (m : List (String × JVal)) : List (String × JVal) :=
  if isObjTypeNode m && (jLookup m "properties").isNone then
    ensureEntries m ++ [("properties", .obj [])]
  else ensureEntries m

/-- Transform each entry of a schema node. -/
def ensureEntries : List (String × JVal) → List (String × JVal)
  | [] => []
  | (k, v) :: rest => (k, ensureValue k v) :: ensureEntries rest

/-- Transform one entry's value: recurse into a `properties` object's members
and into an `items` object; leave everything else alone. -/
def ensureValue (k : String) (v : JVal) : JVal :=
  if k = "properties" then
    match v with
    | .obj props => .obj (ensureProps props)
    | w => w
  else if k = "items" then
    match v with
    | .obj mm => .obj (ensureObjectProperties mm)
    | w => w
  else v

/-- Recurse into every object-valued property. -/
def ensureProps : List (String × JVal) → List (String × JVal)
  | [] => []
  | (k, v) :: rest =>
      (k, match v with
          | .obj pm => JVal.obj (ensureObjectProperties pm)
          | w => w) :: ensureProps rest

end

mutual

/-- Check that a schema node, and every node reachable through `properties`
members and `items`, has a `properties` entry whenever its type is
`"object"`. -/
def schemaNodeOK (m : List (String × JVal)) : Bool :=
  (!isObjTypeNode m || (jLookup m "properties").isSome) && nodeEntriesOK m

/-- Check every entry of a schema node. -/
def nodeEntriesOK : List (String × JVal) → Bool
  | [] => true
  | (k, v) :: rest => entryValueOK k v && nodeEntriesOK rest

/-- Check one entry's value. -/
def entryValueOK (k : String) (v : JVal) : Bool :=
  if k = "properties" then
    match v with
    | .obj props => propsOK props
    | _ => true
  else if k = "items" then
    match v with
    | .obj mm => schemaNodeOK mm
    | _ => true
  else true

/-- Check every object-valued property. -/
def propsOK : List (String × JVal) → Bool
  | [] => true
  | (_, v) :: rest =>
      (match v with
       | .obj pm => schemaNodeOK pm
       | _ => true) && propsOK rest

end

/-!
The genai schema type and its Protocol-A translation, from `convertSchema`
and `schemaTypeToString`.  The Go function's error channel is never taken
(only recursive results are propagated), so the model is total.
-/

/-- The genai schema type enumeration. -/
inductive SchemaType where
  | unspecified
  | stringT
  | numberT
  | integerT
  | booleanT
  | arrayT
  | objectT
deriving DecidableEq, Repr

/-- A genai schema, restricted to the fields `convertSchema` reads. -/
inductive GenSchema where
  | mk (ty : SchemaType) (description : String) (required : List String)
       (enum : List String) (properties : List (String × GenSchema))
       (items : Option GenSchema)

/-- Render a schema type as its JSON-schema name, defaulting to `"string"`
for anything outside the conversion table (`schemaTypeToString`). -/
def schemaTypeToString : SchemaType → String
  | .stringT => "string"
  | .numberT => "number"
  | .integerT => "integer"
  | .booleanT => "boolean"
  | .arrayT => "array"
  | .objectT => "object"
  | .unspecified => "string"

mutual

/-- Translate a genai schema to the loosely typed JSON-schema map
(`convertSchema`); a nil schema becomes an explicit empty object schema. -/
def convertSchema : Option GenSchema → List (String × JVal)
  | none => [("type", .str "object"), ("properties", .obj [])]
  | some (.mk ty desc req en props items) =>
      (if ty ≠ .unspecified then [("type", .str (schemaTypeToString ty))] else []) ++
      (if desc ≠ "" then [("description", .str desc)] else []) ++
      (if req ≠ [] then [("required", .arr (req.map JVal.str))] else []) ++
      (if en ≠ [] then [("enum", .arr (en.map JVal.str))] else []) ++
      (if props.isEmpty then [] else [("properties", .obj (convertProps props))]) ++
      (match items with
       | some it => [("items", .obj (convertSchema (some it)))]
       | none => [])

/-- Translate each named property schema. -/
def convertProps : List (String × GenSchema) → List (String × JVal)
  | [] => []
  | (name, ps) :: rest => (name, .obj (convertSchema (some ps))) :: convertProps rest

end

/-!
Protocol-A tool-parameter serialization, from `convertToFunctionParams`: a nil
parameter object stays nil, a `map[string]any` is used directly, anything
else goes through a JSON round trip whose outcome is an explicit input; the
surviving map is normalized with `ensureObjectProperties`.
-/

/-- A Go `any` presented to `convertToFunctionParams`. -/
inductive FuncParams where
  | nilParams
  | directMap (m : List (String × JVal))
  | viaJSON (decoded : Option (List (String × JVal)))

/-- Convert a tool declaration's parameters to the wire form, ensuring object
nodes carry `properties` (`convertToFunctionParams`). -/
def convertToFunctionParams : FuncParams → Option (List (String × JVal))
  | .nilParams => none
  | .directMap m => some (ensureObjectProperties m)
  | .viaJSON none => none
  | .viaJSON (some m) => some (ensureObjectProperties m)

/-!
Protocol-B (Anthropic adapter) message history repair, from
`repairMessageHistory`, `extractToolUseIDs`, `extractToolResultIDs`,
`filterToolUse` and `hasContent`.  Content blocks mirror the
`ContentBlockParamUnion` variants the repair code distinguishes.
-/

/-- An Anthropic message role. -/
inductive ARole where
  | user
  | assistant
deriving DecidableEq, Repr

/-- An Anthropic content block. -/
inductive ABlock where
  | text (s : String)
  | image (data : String)
  | toolUse (id : String) (name : String) (input : String)
  | toolResult (toolUseId : String) (content : String)
deriving DecidableEq, Repr

/-- An Anthropic message parameter. -/
structure MessageParam where
  role : ARole
  content : List ABlock
deriving DecidableEq, Repr

/-- All tool-use identifiers of a message (`extractToolUseIDs`). -/
def extractToolUseIDs (msg : MessageParam) : List String :=
  msg.content.filterMap fun b =>
    match b with
    | .toolUse id _ _ => some id
    | _ => none

/-- All tool-result identifiers of a message (`extractToolResultIDs`). -/
def extractToolResultIDs (msg : MessageParam) : List String :=
  msg.content.filterMap fun b =>
    match b with
    | .toolResult tid _ => some tid
    | _ => none

/-- Keep tool-use blocks only when their identifier is allowed; `none` (the Go
nil map) removes all of them; every other block is kept (`filterToolUse`). -/
def filterToolUse (msg : MessageParam) (allowed : Option (List String)) : MessageParam :=
  ⟨msg.role, msg.content.filter fun b =>
    match b with
    | .toolUse id _ _ =>
        match allowed with
        | some ids => ids.contains id
        | none => false
    | _ => true⟩

/-- Whether a message still has content blocks (`hasContent`). -/
def hasContent (msg : MessageParam) : Bool := !msg.content.isEmpty

/-- Remove orphaned tool-use blocks: an assistant message's tool-use blocks are
filtered against the tool-result identifiers of an immediately following user
message, or stripped entirely when no user message follows; a filtered
assistant message left without content is dropped (`repairMessageHistory`). -/
def repairMessageHistory : List MessageParam → List MessageParam
  | [] => []
  | msg :: rest =>
      (if msg.role = .assistant ∧ extractToolUseIDs msg ≠ [] then
        match rest with
        | next :: _ =>
            if next.role = .user then
              let f := filterToolUse msg (some (extractToolResultIDs next))
              if hasContent f then [f] else []
            else
              let f := filterToolUse msg none
              if hasContent f then [f] else []
        | [] =>
            let f := filterToolUse msg none
            if hasContent f then [f] else []
      else [msg]) ++ repairMessageHistory rest

/-- Whether a message satisfies the provider requirement against its successor:
an assistant message's every tool-use identifier must have a matching
tool-result in an immediately following user message. -/
def msgToolUseOK (msg : MessageParam) (next : Option MessageParam) : Bool :=
  if msg.role = .assistant then
    (extractToolUseIDs msg).all fun id =>
      match next with
      | some n => n.role == .user && (extractToolResultIDs n).contains id
      | none => false
  else true

/-- The provider requirement checked along a whole message list. -/
def repairedOK : List MessageParam → Bool
  | [] => true
  | [m] => msgToolUseOK m none
  | m :: n :: rest => msgToolUseOK m (some n) && repairedOK (n :: rest)

/-- Whether a block is a tool-use block. -/
def isToolUseBlock : ABlock → Bool
  | .toolUse _ _ _ => true
  | _ => false

/-- The non-tool-use (text, image, tool-result) blocks of a message. -/
def nonToolUseBlocks (msg : MessageParam) : List ABlock :=
  msg.content.filter fun b => !isToolUseBlock b

/-!
The streaming generate-content contract, from `generateStream` of both
adapters.  The upstream wire is an explicit input: a list of chunks (events)
that arrived before the stream ended, plus the terminal error reported by the
stream handle, if any — a mid-stream failure (including a Protocol-B
accumulator error) is represented by truncating the list at the failure and
setting the error.  The consumer is taken to accept every yield; consumer
cancellation is out of scope of the claim.  The SDK accumulators are external
code and are modelled by their observable aggregation.
-/

/-- The provider-neutral finish reason. -/
inductive FinishReason where
  | stop
  | maxTokens
  | safety
  | unspecified
deriving DecidableEq, Repr

/-- Token usage attached to a response; counts are 32-bit in the wire structs,
modelled as unbounded integers (no claim exercises overflow). -/
structure Usage where
  promptTokens : Int
  candidatesTokens : Int
  totalTokens : Int
deriving DecidableEq, Repr

/-- A provider-neutral response part. -/
inductive RPart where
  | text (s : String)
  | functionCall (id : String) (name : String) (args : ArgsMap)

/-- A provider-neutral LLM response; `interim` models the Go `Partial` flag. -/
structure LLMResponse where
  parts : List RPart
  interim : Bool
  turnComplete : Bool
  usage : Option Usage
  finishReason : FinishReason

/-- One yielded pair of the `iter.Seq2[*LLMResponse, error]` sequence: exactly
one of response or error is set. -/
inductive StreamItem where
  | resp (r : LLMResponse)
  | fail (e : String)

/-- The partial response either adapter yields for one non-empty text delta. -/
def mkDeltaResponse (s : String) : LLMResponse :=
  ⟨[.text s], true, false, none, .unspecified⟩

/-- Protocol-A finish reason mapping (`convertFinishReason`). -/
def convertFinishReason (reason : String) : FinishReason :=
  if reason = "stop" ∨ reason = "tool_calls" ∨ reason = "function_call" then .stop
  else if reason = "length" then .maxTokens
  else if reason = "content_filter" then .safety
  else .unspecified

/-- The wire usage block of a chat completion. -/
structure CompletionUsage where
  promptTokens : Int
  completionTokens : Int
  totalTokens : Int
deriving DecidableEq, Repr

/-- Protocol-A usage conversion: present iff the total is non-zero
(`convertUsageMetadata`). -/
def convertUsageMetadata (usage : CompletionUsage) : Option Usage :=
  if usage.totalTokens = 0 then none
  else some ⟨usage.promptTokens, usage.completionTokens, usage.totalTokens⟩

/-- A wire tool call: identifier, name, raw JSON arguments, and the external
codec's decode outcome for those arguments. -/
structure WireToolCall where
  id : String
  name : String
  argsJSON : String
  argsDecoded : Option ArgsMap

/-- The delta of one streamed choice. -/
structure OChunkChoice where
  deltaContent : String
  deltaToolCalls : List WireToolCall
  finishReason : String

/-- One streamed chunk of a Protocol-A completion. -/
structure OChunk where
  choices : List OChunkChoice
  usage : CompletionUsage

/-- The observable state of the external `ChatCompletionAccumulator`: the
first choice's concatenated content and collected tool calls, the last
reported finish reason, and the last non-zero usage. -/
structure OAccum where
  content : String
  toolCalls : List WireToolCall
  finishReason : String
  usage : CompletionUsage

/-- A zero usage block. -/
def emptyUsage : CompletionUsage := ⟨0, 0, 0⟩

/-- The accumulator before any chunk. -/
def initOAccum : OAccum := ⟨"", [], "", emptyUsage⟩

/-- Fold one chunk into the accumulator (model of `accum.AddChunk`). -/
def accumAddChunk (a : OAccum) (c : OChunk) : OAccum :=
  let a1 :=
    match c.choices with
    | [] => a
    | ch :: _ =>
        { content := a.content ++ ch.deltaContent,
          toolCalls := a.toolCalls ++ ch.deltaToolCalls,
          finishReason := if ch.finishReason ≠ "" then ch.finishReason else a.finishReason,
          usage := a.usage }
  if c.usage.totalTokens ≠ 0 then { a1 with usage := c.usage } else a1

/-- Build the final aggregated response from the accumulator
(`buildStreamFinalResponse`): text part when content is non-empty, a
function-call part per accumulated tool call with `parseJSONArgs` arguments,
the mapped finish reason and the converted usage, with the final flags. -/
def buildStreamFinalResponse (a : OAccum) : LLMResponse :=
  { parts :=
      (if a.content ≠ "" then [RPart.text a.content] else []) ++
        a.toolCalls.map (fun tc =>
          RPart.functionCall tc.id tc.name (parseJSONArgs tc.argsJSON tc.argsDecoded)),
    interim := false,
    turnComplete := true,
    usage := convertUsageMetadata a.usage,
    finishReason := convertFinishReason a.finishReason }

/-- The inputs determining one Protocol-A streaming call: whether request
translation failed, the chunks that arrived, and the stream's terminal
error. -/
structure OpenAIStreamInput where
  buildError : Option String
  chunks : List OChunk
  streamErr : Option String

/-- The non-empty text deltas a chunk list yields partial responses for:
chunks without choices or with an empty delta are skipped. -/
def openaiPartials (chunks : List OChunk) : List String :=
  chunks.filterMap fun c =>
    match c.choices with
    | [] => none
    | ch :: _ => if ch.deltaContent = "" then none else some ch.deltaContent

/-- The yielded sequence of one Protocol-A streaming call (`generateStream`)
under a consumer that never cancels. -/
def openaiGenerateStream (i : OpenAIStreamInput) : List StreamItem :=
  match i.buildError with
  | some e => [.fail e]
  | none =>
      (openaiPartials i.chunks).map (fun s => .resp (mkDeltaResponse s)) ++
        match i.streamErr with
        | some e => [.fail e]
        | none => [.resp (buildStreamFinalResponse (i.chunks.foldl accumAddChunk initOAccum))]

/-- The Anthropic stop reason enumeration. -/
inductive AStopReason where
  | endTurn
  | maxTokens
  | stopSequence
  | toolUse
  | other
deriving DecidableEq, Repr

/-- Protocol-B stop reason mapping (`convertStopReason`). -/
def convertStopReason : AStopReason → FinishReason
  | .endTurn => .stop
  | .maxTokens => .maxTokens
  | .stopSequence => .stop
  | .toolUse => .stop
  | .other => .unspecified

/-- One streamed Protocol-B event, reduced to what the adapter observes: a
text delta (yield trigger), and the accumulator-visible effects. -/
inductive AEvent where
  | textDelta (s : String)
  | toolUseBlock (id : String) (name : String) (input : ToolInput)
  | stopEvent (r : AStopReason)
  | usageDelta (input output : Int)
  | otherEvent

/-- The observable state of the external `Message.Accumulate` folding:
concatenated text, tool-use blocks, stop reason, and usage. -/
structure AMessage where
  text : String
  toolUses : List (String × String × ToolInput)
  stopReason : AStopReason
  inputTokens : Int
  outputTokens : Int

/-- The accumulated message before any event. -/
def initAMessage : AMessage := ⟨"", [], .other, 0, 0⟩

/-- Fold one event into the accumulated message. -/
def accumulateEvent (m : AMessage) : AEvent → AMessage
  | .textDelta s => { m with text := m.text ++ s }
  | .toolUseBlock id name input => { m with toolUses := m.toolUses ++ [(id, name, input)] }
  | .stopEvent r => { m with stopReason := r }
  | .usageDelta p q => { m with inputTokens := p, outputTokens := q }
  | .otherEvent => m

/-- Convert the accumulated message to the generic response
(`convertResponse`): a text part per (flattened) text block, a function-call
part per tool-use block with `convertToolInput` arguments, usage present iff
either token count is positive, and the mapped stop reason. -/
def convertAResponse (m : AMessage) : LLMResponse :=
  { parts :=
      (if m.text ≠ "" then [RPart.text m.text] else []) ++
        m.toolUses.map (fun tu => RPart.functionCall tu.1 tu.2.1 (convertToolInput tu.2.2)),
    interim := false,
    turnComplete := true,
    usage :=
      if m.inputTokens > 0 ∨ m.outputTokens > 0 then
        some ⟨m.inputTokens, m.outputTokens, m.inputTokens + m.outputTokens⟩
      else none,
    finishReason := convertStopReason m.stopReason }

/-- The inputs determining one Protocol-B streaming call. -/
structure AnthropicStreamInput where
  buildError : Option String
  events : List AEvent
  streamErr : Option String

/-- The non-empty text deltas an event list yields partial responses for. -/
def anthropicPartials (events : List AEvent) : List String :=
  events.filterMap fun e =>
    match e with
    | .textDelta s => if s = "" then none else some s
    | _ => none

/-- The yielded sequence of one Protocol-B streaming call (`generateStream`)
under a consumer that never cancels; the final response re-sets the
partial/turn-complete flags exactly as the source does. -/
def anthropicGenerateStream (j : AnthropicStreamInput) : List StreamItem :=
  match j.buildError with
  | some e => [.fail e]
  | none =>
      (anthropicPartials j.events).map (fun s => .resp (mkDeltaResponse s)) ++
        match j.streamErr with
        | some e => [.fail e]
        | none =>
            let r := convertAResponse (j.events.foldl accumulateEvent initAMessage)
            [.resp { r with interim := false, turnComplete := true }]

/-- A yielded item that is a well-formed partial: a response flagged
partial-and-not-turn-complete carrying exactly one non-empty text part. -/
def IsDeltaItem (it : StreamItem) : Prop :=
  ∃ s : String, s ≠ "" ∧ it = .resp (mkDeltaResponse s)

/-- The streaming contract: the sequence is non-empty; everything before the
last item is a well-formed partial; and the last item is the single terminal
item — the error when the call failed upstream, otherwise the aggregated
final response with partial false and turn-complete true. -/
def StreamContractOK (out : List StreamItem) (err : Option String)
    (final : LLMResponse) : Prop :=
  out ≠ [] ∧
  (∀ it ∈ out.dropLast, IsDeltaItem it) ∧
  (match err with
   | some e => out.getLast? = some (.fail e)
   | none => out.getLast? = some (.resp final) ∧ final.interim = false ∧
       final.turnComplete = true)

/-- The terminal error of a call, if any: a request-translation failure
surfaces first, otherwise the stream's terminal error. -/
def upstreamOutcome (buildError streamErr : Option String) : Option String :=
  match buildError with
  | some e => some e
  | none => streamErr

/-!
The cached session service, from `session/redis/service.go` and the state
script of the redis state object.  The cache slice a single session touches
is modelled explicitly: envelope, events list, and the per-user index, each
with its TTL (`none` when the key carries no expiry).  Field updates mirror
the Redis commands of the success path: `SET key data ttl` sets the envelope
and its TTL, `RPUSH`/`EXPIRE` grow the list and set its TTL, `SADD`/`EXPIRE`
set the index TTL.
-/

/-- The session record key, `session:{app}:{user}:{id}`. -/
def buildSessionKey (app user id : String) : String :=
  "session:" ++ app ++ ":" ++ user ++ ":" ++ id

/-- The per-user index key, `session:{app}:{user}`. -/
def buildSessionIndexKey (app user : String) : String :=
  "session:" ++ app ++ ":" ++ user

/-- The events list key, `events:{app}:{user}:{id}`. -/
def buildEventsKey (app user id : String) : String :=
  "events:" ++ app ++ ":" ++ user ++ ":" ++ id

/-- The default session TTL, 24 hours in nanoseconds (a Go `time.Duration`). -/
def DefaultSessionTTL : Int := 24 * 60 * 60 * 1000000000

/-- TTL normalization in `NewRedisSessionService`: non-positive snaps to the
default. -/
def serviceTTL (ttl : Int) : Int := if ttl ≤ 0 then DefaultSessionTTL else ttl

/-- The session envelope stored at the session key, reduced to the fields the
state script rewrites. -/
structure Envelope where
  state : List (String × String)
  lastUpdateTime : String
deriving DecidableEq, Repr

/-- The cache slice for one session. -/
structure CacheState where
  envelope : Option Envelope
  envTTL : Option Int
  events : List String
  evTTL : Option Int
  indexTTL : Option Int
deriving DecidableEq, Repr

/-- `Create` on the success path: `SET` the envelope with the TTL, `SADD` the
id into the index, `EXPIRE` the index; the events list is not touched. -/
def createSession (st : CacheState) (ttl : Int) (env : Envelope) : CacheState :=
  { st with envelope := some env, envTTL := some ttl, indexTTL := some ttl }

/-- `AppendEvent`: `RPUSH` the marshalled event and `EXPIRE` the events list,
then read the envelope — an absent record aborts with an error, after the
list already grew — then rewrite the envelope (state snapshot, fresh
last-update time) with `SET ... ttl`.  The per-user index is never touched. -/
def appendEvent (st : CacheState) (ttl : Int) (evtData : String)
    (liveState : List (String × String)) (now : String) : CacheState × Option String :=
  let st1 := { st with events := st.events ++ [evtData], evTTL := some ttl }
  match st1.envelope with
  | none => (st1, some "failed to get session for update")
  | some env =>
      let env2 : Envelope := { env with state := liveState, lastUpdateTime := now }
      ({ st1 with envelope := some env2, envTTL := some ttl }, none)

/-- A reply of the Lua state-update script as go-redis surfaces it: the `OK`
string, an error reply (a Lua table with an `err` field), or the distinct
`redis.Nil` nil-reply sentinel. -/
inductive ScriptOutcome where
  | okReply
  | errReply (msg : String)
  | nilReply
deriving DecidableEq, Repr

/-- The Lua `updateStateScript`: an absent envelope returns the error reply
`session not found`; otherwise the envelope's state and last-update time are
replaced and the record is re-`SET`, with `EX ttl` when the ttl is positive
(a plain `SET` otherwise, which discards the expiry). -/
def runUpdateStateScript (st : CacheState) (ttl : Int)
    (newState : List (String × String)) (ts : String) : CacheState × ScriptOutcome :=
  match st.envelope with
  | none => (st, .errReply "session not found")
  | some env =>
      let env2 : Envelope := { env with state := newState, lastUpdateTime := ts }
      let st2 : CacheState :=
        { st with envelope := some env2, envTTL := if ttl > 0 then some ttl else none }
      (st2, .okReply)

/-- `persistAtomic`: run the script; only a reply equal to `redis.Nil` is
swallowed as an acceptable missing session.  The script's own
`session not found` error reply arrives as a generic error reply — distinct
from `redis.Nil` — so it is wrapped and returned. -/
def persistAtomic (st : CacheState) (ttl : Int) (newState : List (String × String))
    (ts : String) : CacheState × Option String :=
  let r := runUpdateStateScript st ttl newState ts
  match r.2 with
  | .okReply => (r.1, none)
  | .nilReply => (r.1, none)
  | .errReply m => (r.1, some ("failed to persist state atomically: " ++ m))

/-- The in-process state map of a live Session handle (`redisState.data`);
a store shadows older entries. -/
structure RedisStateObj where
  data : List (String × String)
deriving DecidableEq, Repr

/-- `redisState.Set`: store the pair in the local map, then persist the full
snapshot atomically; the persistence error, if any, is returned. -/
def stateSet (s : RedisStateObj) (cache : CacheState) (ttl : Int) (k v : String)
    (ts : String) : RedisStateObj × CacheState × Option String :=
  let s2 : RedisStateObj := ⟨(k, v) :: s.data⟩
  let r := persistAtomic cache ttl s2.data ts
  (s2, r.1, r.2)

/-!
The memory search cascade, from `Search` in `memory/postgres/memory.go`.
The three Postgres queries are external; their result rows are inputs, as is
the embedding call's outcome (`none` an error, `some n` a vector of length
`n`).  Stage errors returned by the database abort the call and are outside
the cascade the claim describes.
-/

/-- A memory row, opaque to the cascade. -/
abbrev MemRow := String

/-- The inputs determining one `Search` call. -/
structure SearchInput where
  hasEmbeddingModel : Bool
  query : String
  embedOutcome : Option Nat
  vectorRows : List MemRow
  textRows : List MemRow
  recentRows : List MemRow

/-- Stage 1 of `Search`: with an embedding model and a non-empty query, a
successful non-empty embedding runs the vector query; otherwise the stage is
skipped and contributes nothing. -/
def searchStage1 (i : SearchInput) : List MemRow :=
  if i.hasEmbeddingModel ∧ i.query ≠ "" then
    match i.embedOutcome with
    | some n => if n > 0 then i.vectorRows else []
    | none => []
  else []

/-- The full cascade of `Search`: the text stage runs when the results so far
are empty and the query is non-empty; the recency stage runs whenever the
results are still empty — with no condition on the query. -/
def searchCascade (i : SearchInput) : List MemRow :=
  let m1 := searchStage1 i
  let m2 := if m1.isEmpty ∧ i.query ≠ "" then i.textRows else m1
  if m2.isEmpty then i.recentRows else m2

theorem sha256_length (msg : List Nat) : (sha256 msg).length = 32 := by
  simp [sha256, be32]

theorem hexEncode_length (bs : List Nat) : (hexEncode bs).length = 2 * bs.length := by
  induction bs with
  | nil => rfl
  | cons b t ih =>
    simp only [hexEncode, List.flatMap_cons] at ih ⊢
    simp [ih]
    omega

/-- C4: the outbound normalized tool-call identifier is at most 40 bytes and equals
the input when the input already fits; a longer input maps to the 40-byte
`tc_`-prefixed truncated SHA-256 hex form, and the reverse lookup of the freshly
recorded short form returns the original identifier. -/
theorem normalizeToolCallID_spec (m : ToolCallMap) (id : GoStr) :
    (normalizeToolCallID m id).1.length ≤ 40 ∧
    (id.length ≤ 40 → (normalizeToolCallID m id).1 = id) ∧
    (40 < id.length →
      (normalizeToolCallID m id).1 = tcHeader ++ (hexEncode (sha256 id)).take 37 ∧
      (normalizeToolCallID m id).1.length = 40 ∧
      denormalizeToolCallID (normalizeToolCallID m id).2 (normalizeToolCallID m id).1 = id) := by
  by_cases h : id.length ≤ 40
  · have hn : normalizeToolCallID m id = (id, m) := by
      unfold normalizeToolCallID maxToolCallIDLength
      rw [if_pos h]
    exact ⟨by rw [hn]; exact h, fun _ => by rw [hn], fun hlt => by omega⟩
  · have hn : normalizeToolCallID m id =
        (tcHeader ++ (hexEncode (sha256 id)).take 37,
         ⟨(tcHeader ++ (hexEncode (sha256 id)).take 37, id) :: m.entries⟩) := by
      unfold normalizeToolCallID maxToolCallIDLength
      rw [if_neg h]
    have hhex : (hexEncode (sha256 id)).length = 64 := by
      rw [hexEncode_length, sha256_length]
    have hlen : (tcHeader ++ (hexEncode (sha256 id)).take 37).length = 40 := by
      simp only [List.length_append, List.length_take, hhex, tcHeader,
        List.length_cons, List.length_nil]
      omega
    refine ⟨by rw [hn]; exact hlen.le, fun hle => absurd hle h,
      fun _ => ⟨by rw [hn], by rw [hn]; exact hlen, ?_⟩⟩
    rw [hn]
    simp [denormalizeToolCallID, List.lookup]

/-- Witness for C4 at the 60-byte identifier of spec scenario 4. -/
theorem normalizeToolCallID_spec_witness :
    40 < (List.replicate 60 120 : GoStr).length ∧
    (normalizeToolCallID ⟨[]⟩ (List.replicate 60 120)).1.length = 40 ∧
    denormalizeToolCallID (normalizeToolCallID ⟨[]⟩ (List.replicate 60 120)).2
      (normalizeToolCallID ⟨[]⟩ (List.replicate 60 120)).1 = List.replicate 60 120 := by
  have h40 : 40 < (List.replicate 60 120 : GoStr).length := by simp
  have h := normalizeToolCallID_spec ⟨[]⟩ (List.replicate 60 120)
  exact ⟨h40, (h.2.2 h40).2.1, (h.2.2 h40).2.2⟩

theorem one_le_normalizeShardCount (c : Int) : 1 ≤ normalizeShardCount c := by
  unfold normalizeShardCount
  by_cases hc : c ≤ 0
  · simp only [hc, if_true]
    decide
  · simp only [hc, if_false]
    by_cases hp : isPowerOfTwo c = true
    · simp only [hp, if_true]
      omega
    · simp only [hp, if_false]
      unfold nextPowerOfTwo
      by_cases h1 : c ≤ 1
      · simp [h1]
      · simp only [h1, if_false]
        omega

theorem one_le_clientShardCount (c : Int) : 1 ≤ clientShardCount c := by
  have := one_le_normalizeShardCount c
  unfold clientShardCount
  omega

set_option maxRecDepth 100000 in
/-- C9: the persister routes a user's event rows to
`session_events_(fnv1a32 u &&& (N - 1))` where `N` is the configured shard
count with non-positive values defaulting to 8 and other values rounded up to
the next power of two (3 becomes 4, 7 becomes 8), so the shard index is always
below `N`.  The round-up law is checked exhaustively for every count up to
1024. -/
theorem shard_routing_spec :
    (∀ c : Int, ∀ u : GoStr,
        GetShardIndex c u < clientShardCount c ∧
        persistEventTable c u =
          "session_events_" ++ toString (fnv1a32 u &&& (clientShardCount c - 1))) ∧
    (∀ c : Int, c ≤ 0 → clientShardCount c = 8) ∧
    clientShardCount 3 = 4 ∧ clientShardCount 7 = 8 ∧
    (∀ n : Nat, n < 1025 → 0 < n →
        isPowerOfTwo (normalizeShardCount n) = true ∧
        (n : Nat) ≤ clientShardCount n ∧ clientShardCount n < 2 * n) := by
  refine ⟨fun c u => ⟨?_, rfl⟩, fun c hc => ?_, by decide, by decide, by decide⟩
  · have h1 : fnv1a32 u &&& (clientShardCount c - 1) ≤ clientShardCount c - 1 :=
      Nat.and_le_right
    have h2 := one_le_clientShardCount c
    unfold GetShardIndex
    omega
  · unfold clientShardCount normalizeShardCount
    simp only [hc, if_true]
    decide

/-- C8: inbound tool-call argument translation is total on both protocols and
maps empty or malformed argument payloads to the empty map, never to an
error. -/
theorem tool_args_total_spec :
    (∀ d : Option ArgsMap, parseJSONArgs "" d = []) ∧
    (∀ s : String, parseJSONArgs s none = []) ∧
    (∀ s : String, ∀ m : ArgsMap, s ≠ "" → parseJSONArgs s (some m) = m) ∧
    convertToolInput .noInput = [] ∧
    (∀ m : ArgsMap, convertToolInput (.mapInput m) = m) ∧
    (∀ b : String, convertToolInput (.rawInput b none) = []) ∧
    (∀ b : String, ∀ m : ArgsMap, convertToolInput (.rawInput b (some m)) = m) ∧
    convertToolInput (.otherInput none) = [] ∧
    (∀ s : String, convertToolInput (.otherInput (some (s, none))) = []) ∧
    (∀ s : String, ∀ m : ArgsMap, convertToolInput (.otherInput (some (s, some m))) = m) := by
  refine ⟨fun d => rfl, fun s => ?_, fun s m hs => ?_, rfl, fun m => rfl, fun b => rfl,
    fun b m => rfl, rfl, fun s => rfl, fun s m => rfl⟩
  · unfold parseJSONArgs
    split <;> rfl
  · simp [parseJSONArgs, hs]

/-- Witness for C8 at the malformed payload of the boundary tests. -/
theorem tool_args_total_spec_witness :
    ("not json" : String) ≠ "" ∧ parseJSONArgs "not json" (some [("a", .atom)]) = [("a", .atom)] :=
  ⟨by decide, tool_args_total_spec.2.2.1 "not json" [("a", .atom)] (by decide)⟩

/-- Witness for C9 at shard count 3 and the user id bytes of "hi". -/
theorem shard_routing_spec_witness :
    GetShardIndex 3 [104, 105] < clientShardCount 3 ∧
    ((-1 : Int) ≤ 0 ∧ clientShardCount (-1) = 8) ∧
    ((3 : Nat) < 1025 ∧ 0 < (3 : Nat) ∧
      isPowerOfTwo (normalizeShardCount (3 : Nat)) = true) :=
  ⟨(shard_routing_spec.1 3 [104, 105]).1,
   ⟨by decide, shard_routing_spec.2.1 (-1) (by decide)⟩,
   ⟨by decide, by decide, (shard_routing_spec.2.2.2.2 3 (by decide) (by decide)).1⟩⟩

theorem jLookup_ensureEntries (l : List (String × JVal)) (k : String) :
    jLookup (ensureEntries l) k = (jLookup l k).map (ensureValue k) := by
  induction l with
  | nil => simp [ensureEntries, jLookup, List.lookup]
  | cons kv rest ih =>
    obtain ⟨k', v⟩ := kv
    cases h : (k == k') with
    | true =>
      have hk : k = k' := by simpa using h
      subst hk
      simp [ensureEntries, jLookup, List.lookup]
    | false => simpa [ensureEntries, jLookup, List.lookup, h] using ih

theorem ensureValue_other (k : String) (v : JVal) (h1 : k ≠ "properties")
    (h2 : k ≠ "items") : ensureValue k v = v := by
  simp [ensureValue.eq_def, h1, h2]

theorem isObjTypeNode_ensureEntries (l : List (String × JVal)) :
    isObjTypeNode (ensureEntries l) = isObjTypeNode l := by
  unfold isObjTypeNode
  rw [jLookup_ensureEntries]
  cases h : jLookup l "type" with
  | none => rfl
  | some v =>
    rw [Option.map_some', ensureValue_other "type" v (by decide) (by decide)]

theorem jLookup_append (l1 l2 : List (String × JVal)) (k : String) :
    jLookup (l1 ++ l2) k =
      match jLookup l1 k with
      | some v => some v
      | none => jLookup l2 k := by
  induction l1 with
  | nil => rfl
  | cons kv rest ih =>
    obtain ⟨k', v⟩ := kv
    cases h : (k == k') with
    | true => simp [jLookup, List.lookup, h]
    | false => simpa [jLookup, List.lookup, h] using ih

theorem nodeEntriesOK_append (l1 l2 : List (String × JVal)) :
    nodeEntriesOK (l1 ++ l2) = (nodeEntriesOK l1 && nodeEntriesOK l2) := by
  induction l1 with
  | nil => simp [nodeEntriesOK]
  | cons kv rest ih =>
    obtain ⟨k, v⟩ := kv
    simp [nodeEntriesOK, ih, Bool.and_assoc]

theorem ensure_ok_all : ∀ n : Nat,
    (∀ m : List (String × JVal), 2 * sizeOf m + 2 ≤ n →
        schemaNodeOK (ensureObjectProperties m) = true) ∧
    (∀ l : List (String × JVal), 2 * sizeOf l + 1 ≤ n →
        nodeEntriesOK (ensureEntries l) = true) ∧
    (∀ (k : String) (v : JVal), 2 * sizeOf v + 2 ≤ n →
        entryValueOK k (ensureValue k v) = true) ∧
    (∀ l : List (String × JVal), 2 * sizeOf l + 2 ≤ n →
        propsOK (ensureProps l) = true) := by
  intro n
  induction n with
  | zero =>
    exact ⟨fun m h => by omega, fun l h => by omega, fun k v h => by omega,
      fun l h => by omega⟩
  | succ n ih =>
    obtain ⟨ihNode, ihEntries, ihValue, ihProps⟩ := ih
    refine ⟨fun m hm => ?_, fun l hl => ?_, fun k v hv => ?_, fun l hl => ?_⟩
    · have he : nodeEntriesOK (ensureEntries m) = true := ihEntries m (by omega)
      by_cases hc : (isObjTypeNode m && (jLookup m "properties").isNone) = true
      · have h1 : jLookup m "properties" = none := by
          cases hP : jLookup m "properties" with
          | none => rfl
          | some v => rw [hP] at hc; simp at hc
        rw [ensureObjectProperties.eq_def, if_pos hc]
        rw [schemaNodeOK.eq_def, nodeEntriesOK_append, he, jLookup_append,
          jLookup_ensureEntries, h1]
        simp [nodeEntriesOK, entryValueOK.eq_def, propsOK, jLookup, List.lookup]
      · rw [ensureObjectProperties.eq_def, if_neg hc]
        rw [schemaNodeOK.eq_def, isObjTypeNode_ensureEntries, jLookup_ensureEntries, he,
          Option.isSome_map']
        cases hP : jLookup m "properties" with
        | some v => simp
        | none =>
          have hA : isObjTypeNode m = false := by
            cases hA' : isObjTypeNode m
            · rfl
            · exact absurd (by rw [hA', hP]; rfl) hc
          simp [hA]
    · cases l with
      | nil => simp [ensureEntries, nodeEntriesOK]
      | cons kv rest =>
        obtain ⟨k, v⟩ := kv
        have hsz : 2 * sizeOf v + 2 ≤ n ∧ 2 * sizeOf rest + 1 ≤ n := by
          simp only [List.cons.sizeOf_spec, Prod.mk.sizeOf_spec] at hl
          omega
        simp only [ensureEntries, nodeEntriesOK]
        rw [ihValue k v hsz.1, ihEntries rest hsz.2]
        rfl
    · by_cases hk1 : k = "properties"
      · subst hk1
        cases v with
        | obj props =>
          have hp : 2 * sizeOf props + 2 ≤ n := by
            simp only [JVal.obj.sizeOf_spec] at hv
            omega
          simpa [ensureValue.eq_def, entryValueOK.eq_def] using ihProps props hp
        | str s => simp [ensureValue.eq_def, entryValueOK.eq_def]
        | arr es => simp [ensureValue.eq_def, entryValueOK.eq_def]
        | atom => simp [ensureValue.eq_def, entryValueOK.eq_def]
      · by_cases hk2 : k = "items"
        · subst hk2
          cases v with
          | obj mm =>
            have hp : 2 * sizeOf mm + 2 ≤ n := by
              simp only [JVal.obj.sizeOf_spec] at hv
              omega
            simpa [ensureValue.eq_def, entryValueOK.eq_def, hk1] using ihNode mm hp
          | str s => simp [ensureValue.eq_def, entryValueOK.eq_def, hk1]
          | arr es => simp [ensureValue.eq_def, entryValueOK.eq_def, hk1]
          | atom => simp [ensureValue.eq_def, entryValueOK.eq_def, hk1]
        · simp [ensureValue.eq_def, entryValueOK.eq_def, hk1, hk2]
    · cases l with
      | nil => simp [ensureProps, propsOK]
      | cons kv rest =>
        obtain ⟨k, v⟩ := kv
        have hrest : 2 * sizeOf rest + 2 ≤ n := by
          simp only [List.cons.sizeOf_spec, Prod.mk.sizeOf_spec] at hl
          omega
        cases v with
        | obj pm =>
          have hpm : 2 * sizeOf pm + 2 ≤ n := by
            simp only [List.cons.sizeOf_spec, Prod.mk.sizeOf_spec,
              JVal.obj.sizeOf_spec] at hl
            omega
          simp only [ensureProps, propsOK]
          rw [ihProps rest hrest, ihNode pm hpm]
          rfl
        | str s =>
          simp only [ensureProps, propsOK]
          rw [ihProps rest hrest]
          rfl
        | arr es =>
          simp only [ensureProps, propsOK]
          rw [ihProps rest hrest]
          rfl
        | atom =>
          simp only [ensureProps, propsOK]
          rw [ihProps rest hrest]
          rfl

theorem ensureObjectProperties_ok (m : List (String × JVal)) :
    schemaNodeOK (ensureObjectProperties m) = true :=
  (ensure_ok_all (2 * sizeOf m + 2)).1 m (le_refl _)

/-- C6 amended: every tool-parameter schema surviving `convertToFunctionParams`
has `properties` on each object node reachable via `properties` members and
`items`; the nil-schema case of `convertSchema` also carries `properties`. -/
theorem schema_normalization_amended :
    (∀ p : FuncParams, ∀ m : List (String × JVal),
        convertToFunctionParams p = some m → schemaNodeOK m = true) ∧
    jLookup (convertSchema none) "properties" = some (.obj []) := by
  constructor
  · intro p m hp
    cases p with
    | nilParams => cases hp
    | directMap mm =>
      cases hp
      exact ensureObjectProperties_ok mm
    | viaJSON d =>
      cases d with
      | none => cases hp
      | some mm =>
        cases hp
        exact ensureObjectProperties_ok mm
  · simp [convertSchema, jLookup, List.lookup]

/-- Witness for the amended C6 at a direct object schema without properties. -/
theorem schema_normalization_amended_witness :
    convertToFunctionParams (.directMap [("type", .str "object")]) =
      some (ensureObjectProperties [("type", .str "object")]) ∧
    schemaNodeOK (ensureObjectProperties [("type", .str "object")]) = true :=
  ⟨rfl, schema_normalization_amended.1 (.directMap [("type", .str "object")])
    (ensureObjectProperties [("type", .str "object")]) rfl⟩

/-- C6 counterexample: a response schema translated by `convertSchema` keeps an
object node without `properties` — the `ensureObjectProperties` normalization
is not applied on the response-schema path, so the claim fails for response
schemas. -/
theorem schema_normalization_counterexample :
    convertSchema (some (.mk .objectT "" [] [] [] none)) = [("type", .str "object")] ∧
    jLookup (convertSchema (some (.mk .objectT "" [] [] [] none))) "properties" = none ∧
    schemaNodeOK (convertSchema (some (.mk .objectT "" [] [] [] none))) = false := by
  have h : convertSchema (some (.mk .objectT "" [] [] [] none)) = [("type", .str "object")] := by
    rw [convertSchema.eq_def]
    simp [schemaTypeToString]
  refine ⟨h, ?_, ?_⟩
  · rw [h]
    simp [jLookup, List.lookup]
  · rw [h]
    simp [schemaNodeOK, isObjTypeNode, nodeEntriesOK, entryValueOK, jLookup, List.lookup]

theorem repairedOK_cons (m : MessageParam) (l : List MessageParam) :
    repairedOK (m :: l) = (msgToolUseOK m l.head? && repairedOK l) := by
  cases l with
  | nil => simp [repairedOK]
  | cons n rest => rfl

theorem msgToolUseOK_of_not_assistant (msg : MessageParam) (x : Option MessageParam)
    (h : ¬msg.role = .assistant) : msgToolUseOK msg x = true := by
  simp [msgToolUseOK, h]

theorem msgToolUseOK_of_no_toolUse (msg : MessageParam) (x : Option MessageParam)
    (h : extractToolUseIDs msg = []) : msgToolUseOK msg x = true := by
  unfold msgToolUseOK
  rw [h]
  simp

theorem extractToolUseIDs_filter_none (msg : MessageParam) :
    extractToolUseIDs (filterToolUse msg none) = [] := by
  unfold extractToolUseIDs filterToolUse
  induction msg.content with
  | nil => rfl
  | cons b rest ih =>
    cases b <;> simpa [List.filter, List.filterMap] using ih

theorem extractToolUseIDs_filter_some (msg : MessageParam) (ids : List String)
    (id : String) (h : id ∈ extractToolUseIDs (filterToolUse msg (some ids))) :
    id ∈ ids := by
  obtain ⟨r, bs⟩ := msg
  induction bs with
  | nil => simp [extractToolUseIDs, filterToolUse] at h
  | cons b rest ih =>
    cases b with
    | toolUse i nm inp =>
      by_cases hc : i ∈ ids
      · rw [show extractToolUseIDs (filterToolUse ⟨r, ABlock.toolUse i nm inp :: rest⟩
              (some ids)) =
            i :: extractToolUseIDs (filterToolUse ⟨r, rest⟩ (some ids)) by
          simp [extractToolUseIDs, filterToolUse, List.filter_cons, hc]] at h
        rcases List.mem_cons.mp h with h1 | h2
        · rw [h1]
          exact hc
        · exact ih h2
      · rw [show extractToolUseIDs (filterToolUse ⟨r, ABlock.toolUse i nm inp :: rest⟩
              (some ids)) =
            extractToolUseIDs (filterToolUse ⟨r, rest⟩ (some ids)) by
          simp [extractToolUseIDs, filterToolUse, List.filter_cons, hc]] at h
        exact ih h
    | text s =>
      rw [show extractToolUseIDs (filterToolUse ⟨r, ABlock.text s :: rest⟩ (some ids)) =
          extractToolUseIDs (filterToolUse ⟨r, rest⟩ (some ids)) by
        simp [extractToolUseIDs, filterToolUse, List.filter_cons]] at h
      exact ih h
    | image d =>
      rw [show extractToolUseIDs (filterToolUse ⟨r, ABlock.image d :: rest⟩ (some ids)) =
          extractToolUseIDs (filterToolUse ⟨r, rest⟩ (some ids)) by
        simp [extractToolUseIDs, filterToolUse, List.filter_cons]] at h
      exact ih h
    | toolResult t c =>
      rw [show extractToolUseIDs (filterToolUse ⟨r, ABlock.toolResult t c :: rest⟩
            (some ids)) =
          extractToolUseIDs (filterToolUse ⟨r, rest⟩ (some ids)) by
        simp [extractToolUseIDs, filterToolUse, List.filter_cons]] at h
      exact ih h

theorem filterToolUse_role (msg : MessageParam) (a : Option (List String)) :
    (filterToolUse msg a).role = msg.role := rfl

theorem nonToolUseBlocks_filterToolUse (msg : MessageParam) (a : Option (List String)) :
    nonToolUseBlocks (filterToolUse msg a) = nonToolUseBlocks msg := by
  obtain ⟨r, bs⟩ := msg
  induction bs with
  | nil => rfl
  | cons b rest ih =>
    cases b with
    | toolUse i nm inp =>
      cases a with
      | none =>
        simpa [nonToolUseBlocks, filterToolUse, List.filter_cons, isToolUseBlock] using ih
      | some ids =>
        by_cases hc : i ∈ ids <;>
          simpa [nonToolUseBlocks, filterToolUse, List.filter_cons, isToolUseBlock, hc]
            using ih
    | text s =>
      simpa [nonToolUseBlocks, filterToolUse, List.filter_cons, isToolUseBlock] using ih
    | image d =>
      simpa [nonToolUseBlocks, filterToolUse, List.filter_cons, isToolUseBlock] using ih
    | toolResult t c =>
      simpa [nonToolUseBlocks, filterToolUse, List.filter_cons, isToolUseBlock] using ih

theorem nonToolUseBlocks_of_empty_filter (msg : MessageParam) (a : Option (List String))
    (h : hasContent (filterToolUse msg a) = false) : nonToolUseBlocks msg = [] := by
  have h3 : (filterToolUse msg a).content = [] := by
    unfold hasContent at h
    cases hh : (filterToolUse msg a).content with
    | nil => rfl
    | cons x xs =>
      rw [hh] at h
      simp at h
  rw [← nonToolUseBlocks_filterToolUse msg a]
  unfold nonToolUseBlocks
  rw [h3]
  rfl

theorem repair_user_head (next : MessageParam) (l : List MessageParam)
    (h : next.role = .user) :
    repairMessageHistory (next :: l) = next :: repairMessageHistory l := by
  have hne : ¬next.role = .assistant := by
    rw [h]
    intro hx
    cases hx
  simp [repairMessageHistory, hne]

theorem repair_two (msg next : MessageParam) (rest' : List MessageParam) :
    repairMessageHistory (msg :: next :: rest') =
      (if msg.role = .assistant ∧ extractToolUseIDs msg ≠ [] then
        if next.role = .user then
          if hasContent (filterToolUse msg (some (extractToolResultIDs next))) then
            [filterToolUse msg (some (extractToolResultIDs next))]
          else []
        else
          if hasContent (filterToolUse msg none) then [filterToolUse msg none] else []
      else [msg]) ++ repairMessageHistory (next :: rest') := rfl

theorem repair_one (msg : MessageParam) :
    repairMessageHistory [msg] =
      (if msg.role = .assistant ∧ extractToolUseIDs msg ≠ [] then
        if hasContent (filterToolUse msg none) then [filterToolUse msg none] else []
      else [msg]) := by
  have h : repairMessageHistory [msg] =
      (if msg.role = .assistant ∧ extractToolUseIDs msg ≠ [] then
        if hasContent (filterToolUse msg none) then [filterToolUse msg none] else []
      else [msg]) ++ repairMessageHistory [] := rfl
  rw [h, show repairMessageHistory [] = [] from rfl, List.append_nil]

theorem msgToolUseOK_of_not_cond (msg : MessageParam) (x : Option MessageParam)
    (h : ¬(msg.role = .assistant ∧ extractToolUseIDs msg ≠ [])) :
    msgToolUseOK msg x = true := by
  by_cases hrole : msg.role = .assistant
  · have hids : extractToolUseIDs msg = [] := by
      by_contra hne
      exact h ⟨hrole, hne⟩
    exact msgToolUseOK_of_no_toolUse _ _ hids
  · exact msgToolUseOK_of_not_assistant _ _ hrole

theorem repairedOK_repair (ms : List MessageParam) :
    repairedOK (repairMessageHistory ms) = true := by
  induction ms with
  | nil => rfl
  | cons msg rest ih =>
    cases rest with
    | nil =>
      rw [repair_one]
      by_cases hcond : msg.role = .assistant ∧ extractToolUseIDs msg ≠ []
      · rw [if_pos hcond]
        by_cases hfc : hasContent (filterToolUse msg none) = true
        · rw [if_pos hfc]
          show msgToolUseOK (filterToolUse msg none) none = true
          exact msgToolUseOK_of_no_toolUse _ none (extractToolUseIDs_filter_none msg)
        · rw [if_neg hfc]
          rfl
      · rw [if_neg hcond]
        exact msgToolUseOK_of_not_cond msg none hcond
    | cons next rest' =>
      rw [repair_two]
      by_cases hcond : msg.role = .assistant ∧ extractToolUseIDs msg ≠ []
      · rw [if_pos hcond]
        by_cases hnu : next.role = .user
        · rw [if_pos hnu]
          by_cases hfc :
              hasContent (filterToolUse msg (some (extractToolResultIDs next))) = true
          · rw [if_pos hfc, repair_user_head next rest' hnu, List.singleton_append,
              repairedOK_cons, List.head?_cons]
            have h1 : msgToolUseOK (filterToolUse msg (some (extractToolResultIDs next)))
                (some next) = true := by
              unfold msgToolUseOK
              rw [filterToolUse_role, if_pos hcond.1]
              simp only [List.all_eq_true]
              intro id hid
              have hm := extractToolUseIDs_filter_some msg (extractToolResultIDs next) id hid
              simp [hnu, hm]
            rw [h1, Bool.true_and, ← repair_user_head next rest' hnu]
            exact ih
          · rw [if_neg hfc, List.nil_append]
            exact ih
        · rw [if_neg hnu]
          by_cases hfc : hasContent (filterToolUse msg none) = true
          · rw [if_pos hfc, List.singleton_append, repairedOK_cons,
              msgToolUseOK_of_no_toolUse _ _ (extractToolUseIDs_filter_none msg), ih]
            rfl
          · rw [if_neg hfc, List.nil_append]
            exact ih
      · rw [if_neg hcond, List.singleton_append, repairedOK_cons,
          msgToolUseOK_of_not_cond msg _ hcond, ih]
        rfl

theorem repair_nonToolUse (ms : List MessageParam) :
    (repairMessageHistory ms).flatMap nonToolUseBlocks = ms.flatMap nonToolUseBlocks := by
  induction ms with
  | nil => rfl
  | cons msg rest ih =>
    have hstep : ∀ (a : Option (List String)),
        (if hasContent (filterToolUse msg a) then [filterToolUse msg a]
         else []).flatMap nonToolUseBlocks = nonToolUseBlocks msg := by
      intro a
      by_cases hfc : hasContent (filterToolUse msg a) = true
      · rw [if_pos hfc]
        simp [nonToolUseBlocks_filterToolUse]
      · rw [if_neg hfc]
        have h0 : hasContent (filterToolUse msg a) = false := by
          simpa using hfc
        rw [nonToolUseBlocks_of_empty_filter msg a h0]
        rfl
    cases rest with
    | nil =>
      rw [repair_one]
      by_cases hcond : msg.role = .assistant ∧ extractToolUseIDs msg ≠ []
      · rw [if_pos hcond]
        simpa using hstep none
      · rw [if_neg hcond]
    | cons next rest' =>
      rw [repair_two, List.flatMap_append]
      by_cases hcond : msg.role = .assistant ∧ extractToolUseIDs msg ≠ []
      · rw [if_pos hcond]
        by_cases hnu : next.role = .user
        · rw [if_pos hnu, hstep (some (extractToolResultIDs next)), ih]
          rfl
        · rw [if_neg hnu, hstep none, ih]
          rfl
      · rw [if_neg hcond, ih]
        simp [List.flatMap_cons]

theorem repair_dropped_empty (ms : List MessageParam) :
    ∀ m ∈ repairMessageHistory ms, m.role = .assistant → m.content = [] →
      m ∈ ms ∧ extractToolUseIDs m = [] := by
  induction ms with
  | nil =>
    intro m hm
    simp [repairMessageHistory] at hm
  | cons msg rest ih =>
    intro m hm hrole hcont
    have hfmem : ∀ (a : Option (List String)),
        m ∈ (if hasContent (filterToolUse msg a) then [filterToolUse msg a] else []) →
        False := by
      intro a hmm
      by_cases hfc : hasContent (filterToolUse msg a) = true
      · rw [if_pos hfc] at hmm
        have hme : m = filterToolUse msg a := by simpa using hmm
        rw [← hme] at hfc
        unfold hasContent at hfc
        rw [hcont] at hfc
        simp at hfc
      · rw [if_neg hfc] at hmm
        simp at hmm
    have hself : m ∈ [msg] → m ∈ msg :: rest ∧ extractToolUseIDs m = [] → True := fun _ _ => trivial
    cases rest with
    | nil =>
      rw [repair_one] at hm
      by_cases hcond : msg.role = .assistant ∧ extractToolUseIDs msg ≠ []
      · rw [if_pos hcond] at hm
        exact absurd hm (fun hmm => hfmem none hmm)
      · rw [if_neg hcond] at hm
        have hme : m = msg := by simpa using hm
        subst hme
        refine ⟨List.mem_cons_self _ _, ?_⟩
        by_contra hne
        exact hcond ⟨hrole, hne⟩
    | cons next rest' =>
      rw [repair_two] at hm
      rcases List.mem_append.mp hm with hleft | hright
      · by_cases hcond : msg.role = .assistant ∧ extractToolUseIDs msg ≠ []
        · rw [if_pos hcond] at hleft
          by_cases hnu : next.role = .user
          · rw [if_pos hnu] at hleft
            exact absurd hleft (fun hmm => hfmem (some (extractToolResultIDs next)) hmm)
          · rw [if_neg hnu] at hleft
            exact absurd hleft (fun hmm => hfmem none hmm)
        · rw [if_neg hcond] at hleft
          have hme : m = msg := by simpa using hleft
          subst hme
          refine ⟨List.mem_cons_self _ _, ?_⟩
          by_contra hne
          exact hcond ⟨hrole, hne⟩
      · have hr := ih m hright hrole hcont
        exact ⟨List.mem_cons_of_mem _ hr.1, hr.2⟩

/-- C3: after Protocol-B history repair, every assistant tool-use block is
matched by a tool-result in the immediately following user message (which
also forces stripping when no user message follows); an assistant message
filtered down to no content is dropped, and only such a message — any
surviving empty assistant message was already empty, with no tool-use blocks;
text and image (and tool-result) blocks are never removed. -/
theorem repair_history_spec : ∀ ms : List MessageParam,
    repairedOK (repairMessageHistory ms) = true ∧
    (repairMessageHistory ms).flatMap nonToolUseBlocks = ms.flatMap nonToolUseBlocks ∧
    (∀ m ∈ repairMessageHistory ms, m.role = .assistant → m.content = [] →
        m ∈ ms ∧ extractToolUseIDs m = []) :=
  fun ms => ⟨repairedOK_repair ms, repair_nonToolUse ms, repair_dropped_empty ms⟩

/-- Witness for C3 at the messages of spec scenario 2, plus the concrete
scenario-2 stripping of the unmatched block B. -/
theorem repair_history_spec_witness :
    repairedOK (repairMessageHistory
      [⟨.assistant, [.toolUse "A" "f" "x", .toolUse "B" "f" "x"]⟩,
       ⟨.user, [.toolResult "A" "ok"]⟩]) = true ∧
    repairMessageHistory
      [⟨.assistant, [.toolUse "A" "f" "x", .toolUse "B" "f" "x"]⟩,
       ⟨.user, [.toolResult "A" "ok"]⟩] =
      [⟨.assistant, [.toolUse "A" "f" "x"]⟩, ⟨.user, [.toolResult "A" "ok"]⟩] ∧
    (⟨ARole.assistant, []⟩ : MessageParam) ∈
      repairMessageHistory [(⟨ARole.assistant, []⟩ : MessageParam)] ∧
    (⟨ARole.assistant, []⟩ : MessageParam) ∈ [(⟨ARole.assistant, []⟩ : MessageParam)] ∧
    extractToolUseIDs ⟨ARole.assistant, []⟩ = [] := by
  refine ⟨(repair_history_spec _).1, by decide, by decide, ?_, ?_⟩
  · exact ((repair_history_spec [(⟨ARole.assistant, []⟩ : MessageParam)]).2.2
      ⟨ARole.assistant, []⟩ (by decide) rfl rfl).1
  · exact ((repair_history_spec [(⟨ARole.assistant, []⟩ : MessageParam)]).2.2
      ⟨ARole.assistant, []⟩ (by decide) rfl rfl).2

theorem openaiPartials_ne_empty (chunks : List OChunk) (s : String)
    (h : s ∈ openaiPartials chunks) : s ≠ "" := by
  unfold openaiPartials at h
  rcases List.mem_filterMap.mp h with ⟨c, _, hcs⟩
  cases hch : c.choices with
  | nil => simp [hch] at hcs
  | cons ch t =>
    simp only [hch] at hcs
    by_cases hd : ch.deltaContent = ""
    · simp [hd] at hcs
    · simp only [if_neg hd, Option.some_inj] at hcs
      rw [← hcs]
      exact hd

theorem anthropicPartials_ne_empty (events : List AEvent) (s : String)
    (h : s ∈ anthropicPartials events) : s ≠ "" := by
  unfold anthropicPartials at h
  rcases List.mem_filterMap.mp h with ⟨e, _, hes⟩
  cases e with
  | textDelta t =>
    by_cases hd : t = ""
    · simp [hd] at hes
    · simp only [if_neg hd, Option.some_inj] at hes
      rw [← hes]
      exact hd
  | toolUseBlock a b c => simp at hes
  | stopEvent r => simp at hes
  | usageDelta p q => simp at hes
  | otherEvent => simp at hes

theorem convertAResponse_reset (m : AMessage) :
    { convertAResponse m with interim := false, turnComplete := true } =
      convertAResponse m := rfl

theorem deltas_all_ok (l : List String) (hne : ∀ s ∈ l, s ≠ "") :
    ∀ it ∈ l.map (fun s => StreamItem.resp (mkDeltaResponse s)), IsDeltaItem it := by
  intro it hit
  rcases List.mem_map.mp hit with ⟨s, hs, rfl⟩
  exact ⟨s, hne s hs, rfl⟩

/-- C1: for both adapters' streaming calls, the yielded sequence is a
non-empty list of zero or more partial responses — each flagged partial,
not turn-complete, carrying one non-empty incremental text fragment, in
arrival order — terminated by exactly one last item: on an upstream error the
single error pair, otherwise the single final response built from the
accumulated stream with partial false and turn-complete true, carrying the
aggregated content, tool calls, finish reason, and usage. -/
theorem generate_stream_spec :
    (∀ i : OpenAIStreamInput,
        StreamContractOK (openaiGenerateStream i)
          (upstreamOutcome i.buildError i.streamErr)
          (buildStreamFinalResponse (i.chunks.foldl accumAddChunk initOAccum)) ∧
        (i.buildError = none →
          (openaiGenerateStream i).dropLast =
            (openaiPartials i.chunks).map (fun s => .resp (mkDeltaResponse s)))) ∧
    (∀ j : AnthropicStreamInput,
        StreamContractOK (anthropicGenerateStream j)
          (upstreamOutcome j.buildError j.streamErr)
          (convertAResponse (j.events.foldl accumulateEvent initAMessage)) ∧
        (j.buildError = none →
          (anthropicGenerateStream j).dropLast =
            (anthropicPartials j.events).map (fun s => .resp (mkDeltaResponse s)))) := by
  constructor
  · intro i
    cases hbe : i.buildError with
    | some e =>
      refine ⟨⟨by simp [openaiGenerateStream, hbe], ?_, ?_⟩, by simp [hbe]⟩
      · simp [openaiGenerateStream, hbe]
      · simp [openaiGenerateStream, hbe, upstreamOutcome]
    | none =>
      have hall := deltas_all_ok (openaiPartials i.chunks)
        (fun s hs => openaiPartials_ne_empty i.chunks s hs)
      cases hse : i.streamErr with
      | some e =>
        refine ⟨⟨by simp [openaiGenerateStream, hbe, hse], ?_, ?_⟩, ?_⟩
        · rw [show openaiGenerateStream i =
              (openaiPartials i.chunks).map (fun s => .resp (mkDeltaResponse s)) ++
                [.fail e] by simp [openaiGenerateStream, hbe, hse]]
          rw [List.dropLast_concat]
          exact hall
        · simp [openaiGenerateStream, hbe, hse, upstreamOutcome, List.getLast?_concat]
        · intro _
          rw [show openaiGenerateStream i =
              (openaiPartials i.chunks).map (fun s => .resp (mkDeltaResponse s)) ++
                [.fail e] by simp [openaiGenerateStream, hbe, hse]]
          rw [List.dropLast_concat]
      | none =>
        refine ⟨⟨by simp [openaiGenerateStream, hbe, hse], ?_, ?_⟩, ?_⟩
        · rw [show openaiGenerateStream i =
              (openaiPartials i.chunks).map (fun s => .resp (mkDeltaResponse s)) ++
                [.resp (buildStreamFinalResponse (i.chunks.foldl accumAddChunk initOAccum))]
              by simp [openaiGenerateStream, hbe, hse]]
          rw [List.dropLast_concat]
          exact hall
        · refine ⟨?_, rfl, rfl⟩
          simp [openaiGenerateStream, hbe, hse, upstreamOutcome, List.getLast?_concat]
        · intro _
          rw [show openaiGenerateStream i =
              (openaiPartials i.chunks).map (fun s => .resp (mkDeltaResponse s)) ++
                [.resp (buildStreamFinalResponse (i.chunks.foldl accumAddChunk initOAccum))]
              by simp [openaiGenerateStream, hbe, hse]]
          rw [List.dropLast_concat]
  · intro j
    cases hbe : j.buildError with
    | some e =>
      refine ⟨⟨by simp [anthropicGenerateStream, hbe], ?_, ?_⟩, by simp [hbe]⟩
      · simp [anthropicGenerateStream, hbe]
      · simp [anthropicGenerateStream, hbe, upstreamOutcome]
    | none =>
      have hall := deltas_all_ok (anthropicPartials j.events)
        (fun s hs => anthropicPartials_ne_empty j.events s hs)
      cases hse : j.streamErr with
      | some e =>
        refine ⟨⟨by simp [anthropicGenerateStream, hbe, hse], ?_, ?_⟩, ?_⟩
        · rw [show anthropicGenerateStream j =
              (anthropicPartials j.events).map (fun s => .resp (mkDeltaResponse s)) ++
                [.fail e] by simp [anthropicGenerateStream, hbe, hse]]
          rw [List.dropLast_concat]
          exact hall
        · simp [anthropicGenerateStream, hbe, hse, upstreamOutcome, List.getLast?_concat]
        · intro _
          rw [show anthropicGenerateStream j =
              (anthropicPartials j.events).map (fun s => .resp (mkDeltaResponse s)) ++
                [.fail e] by simp [anthropicGenerateStream, hbe, hse]]
          rw [List.dropLast_concat]
      | none =>
        refine ⟨⟨by simp [anthropicGenerateStream, hbe, hse], ?_, ?_⟩, ?_⟩
        · rw [show anthropicGenerateStream j =
              (anthropicPartials j.events).map (fun s => .resp (mkDeltaResponse s)) ++
                [.resp (convertAResponse (j.events.foldl accumulateEvent initAMessage))]
              by simp [anthropicGenerateStream, hbe, hse, convertAResponse_reset]]
          rw [List.dropLast_concat]
          exact hall
        · refine ⟨?_, rfl, rfl⟩
          simp [anthropicGenerateStream, hbe, hse, upstreamOutcome, List.getLast?_concat,
            convertAResponse_reset]
        · intro _
          rw [show anthropicGenerateStream j =
              (anthropicPartials j.events).map (fun s => .resp (mkDeltaResponse s)) ++
                [.resp (convertAResponse (j.events.foldl accumulateEvent initAMessage))]
              by simp [anthropicGenerateStream, hbe, hse, convertAResponse_reset]]
          rw [List.dropLast_concat]

/-- Witness for C1 at the three-delta stream of spec scenario 1. -/
theorem generate_stream_spec_witness :
    StreamContractOK
      (openaiGenerateStream
        ⟨none,
         [⟨[⟨"He", [], ""⟩], emptyUsage⟩, ⟨[⟨"llo", [], ""⟩], emptyUsage⟩,
          ⟨[⟨"!", [], "stop"⟩], emptyUsage⟩, ⟨[], ⟨1, 3, 4⟩⟩],
         none⟩)
      none
      (buildStreamFinalResponse
        (([⟨[⟨"He", [], ""⟩], emptyUsage⟩, ⟨[⟨"llo", [], ""⟩], emptyUsage⟩,
           ⟨[⟨"!", [], "stop"⟩], emptyUsage⟩,
           ⟨[], ⟨1, 3, 4⟩⟩] : List OChunk).foldl accumAddChunk initOAccum)) ∧
    (openaiGenerateStream
        ⟨none,
         [⟨[⟨"He", [], ""⟩], emptyUsage⟩, ⟨[⟨"llo", [], ""⟩], emptyUsage⟩,
          ⟨[⟨"!", [], "stop"⟩], emptyUsage⟩, ⟨[], ⟨1, 3, 4⟩⟩],
         none⟩).dropLast =
      (openaiPartials
        [⟨[⟨"He", [], ""⟩], emptyUsage⟩, ⟨[⟨"llo", [], ""⟩], emptyUsage⟩,
         ⟨[⟨"!", [], "stop"⟩], emptyUsage⟩, ⟨[], ⟨1, 3, 4⟩⟩]).map
        (fun s => .resp (mkDeltaResponse s)) :=
  ⟨(generate_stream_spec.1
    ⟨none,
     [⟨[⟨"He", [], ""⟩], emptyUsage⟩, ⟨[⟨"llo", [], ""⟩], emptyUsage⟩,
      ⟨[⟨"!", [], "stop"⟩], emptyUsage⟩, ⟨[], ⟨1, 3, 4⟩⟩],
     none⟩).1,
   (generate_stream_spec.1
    ⟨none,
     [⟨[⟨"He", [], ""⟩], emptyUsage⟩, ⟨[⟨"llo", [], ""⟩], emptyUsage⟩,
      ⟨[⟨"!", [], "stop"⟩], emptyUsage⟩, ⟨[], ⟨1, 3, 4⟩⟩],
     none⟩).2 rfl⟩

/-- C10: `AppendEvent` is not atomic across its cache writes — with an absent
session record it returns an error while the events list has already grown by
the pushed event. -/
theorem appendEvent_not_atomic (st : CacheState) (ttl : Int) (evtData : String)
    (liveState : List (String × String)) (now : String)
    (h : st.envelope = none) :
    (appendEvent st ttl evtData liveState now).2.isSome = true ∧
    (appendEvent st ttl evtData liveState now).1.events = st.events ++ [evtData] ∧
    (appendEvent st ttl evtData liveState now).1.events.length = st.events.length + 1 := by
  simp [appendEvent, h]

/-- Witness for C10 at an empty cache. -/
theorem appendEvent_not_atomic_witness :
    (⟨none, none, [], none, none⟩ : CacheState).envelope = none ∧
    (appendEvent ⟨none, none, [], none, none⟩ 60 "evt" [] "t").2.isSome = true ∧
    (appendEvent ⟨none, none, [], none, none⟩ 60 "evt" [] "t").1.events = ["evt"] := by
  refine ⟨rfl, (appendEvent_not_atomic _ _ _ _ _ rfl).1, ?_⟩
  have h := (appendEvent_not_atomic ⟨none, none, [], none, none⟩ 60 "evt" [] "t" rfl).2.1
  simpa using h

/-- C7: evaluating the embedded `Set` at an absent envelope.  The local cache
is updated, but the script's `session not found` error reply is not the
`redis.Nil` sentinel the code swallows, so `Set` returns a wrapped error —
against the claim (and the code's own comment) that it silently succeeds. -/
theorem stateSet_absent_envelope_divergence :
    (stateSet ⟨[]⟩ ⟨none, none, [], none, none⟩ 86400 "k" "v" "t0").2.2 =
      some "failed to persist state atomically: session not found" ∧
    (stateSet ⟨[]⟩ ⟨none, none, [], none, none⟩ 86400 "k" "v" "t0").1.data =
      [("k", "v")] ∧
    (stateSet ⟨[]⟩ ⟨none, none, [], none, none⟩ 86400 "k" "v" "t0").2.1.envelope =
      none :=
  ⟨rfl, rfl, rfl⟩

/-- C5 counterexample: `AppendEvent` leaves the per-user index TTL untouched
(and `Create` leaves the events-list TTL untouched), so not every mutation
resets the TTL of all three keys. -/
theorem ttl_refresh_counterexample :
    (appendEvent ⟨some ⟨[], "t0"⟩, some 5, [], some 5, some 5⟩ 86400 "evt" [] "t1").1.indexTTL
      = some 5 ∧
    ¬((appendEvent ⟨some ⟨[], "t0"⟩, some 5, [], some 5, some 5⟩ 86400 "evt" [] "t1").1.indexTTL
      = some 86400) ∧
    (createSession ⟨none, none, [], none, some 5⟩ 86400 ⟨[], "t0"⟩).evTTL = none :=
  ⟨rfl, by decide, rfl⟩

/-- C5 amended: a non-positive configured TTL snaps to the 24-hour default;
`Create` resets the TTLs of the session record and the per-user index (no
events list exists yet); `AppendEvent` resets the TTLs of the events list and
the session record but never the index; a state `Set` resets only the session
record's TTL. -/
theorem ttl_refresh_amended :
    (∀ t : Int, t ≤ 0 → serviceTTL t = DefaultSessionTTL) ∧
    (∀ t : Int, 0 < t → serviceTTL t = t) ∧
    (∀ st : CacheState, ∀ ttl : Int, ∀ env : Envelope,
        (createSession st ttl env).envTTL = some ttl ∧
        (createSession st ttl env).indexTTL = some ttl ∧
        (createSession st ttl env).evTTL = st.evTTL) ∧
    (∀ st : CacheState, ∀ ttl : Int, ∀ d : String, ∀ ls : List (String × String),
        ∀ now : String,
        (appendEvent st ttl d ls now).1.evTTL = some ttl ∧
        (appendEvent st ttl d ls now).1.indexTTL = st.indexTTL ∧
        (st.envelope ≠ none → (appendEvent st ttl d ls now).1.envTTL = some ttl)) ∧
    (∀ st : CacheState, ∀ ttl : Int, ∀ ns : List (String × String), ∀ ts : String,
        0 < ttl → st.envelope ≠ none →
        (persistAtomic st ttl ns ts).1.envTTL = some ttl ∧
        (persistAtomic st ttl ns ts).1.evTTL = st.evTTL ∧
        (persistAtomic st ttl ns ts).1.indexTTL = st.indexTTL) := by
  refine ⟨fun t ht => by simp [serviceTTL, ht], fun t ht => ?_,
    fun st ttl env => ⟨rfl, rfl, rfl⟩, fun st ttl d ls now => ?_, fun st ttl ns ts hp he => ?_⟩
  · have : ¬t ≤ 0 := by omega
    simp [serviceTTL, this]
  · cases h : st.envelope with
    | none => exact ⟨by simp [appendEvent, h], by simp [appendEvent, h],
        fun hne => absurd rfl hne⟩
    | some env => exact ⟨by simp [appendEvent, h], by simp [appendEvent, h],
        fun _ => by simp [appendEvent, h]⟩
  · cases h : st.envelope with
    | none => exact absurd h he
    | some env =>
      refine ⟨?_, ?_, ?_⟩ <;>
        simp [persistAtomic, runUpdateStateScript, h, hp]

/-- Witness for the amended C5 at concrete TTLs and a populated cache. -/
theorem ttl_refresh_amended_witness :
    ((-1 : Int) ≤ 0 ∧ serviceTTL (-1) = DefaultSessionTTL) ∧
    ((0 : Int) < 7 ∧ serviceTTL 7 = 7) ∧
    ((⟨some ⟨[], "t"⟩, some 5, [], some 5, some 5⟩ : CacheState).envelope ≠ none ∧
      (appendEvent ⟨some ⟨[], "t"⟩, some 5, [], some 5, some 5⟩ 9 "d" [] "n").1.envTTL =
        some 9) ∧
    ((0 : Int) < 9 ∧
      (persistAtomic ⟨some ⟨[], "t"⟩, some 5, [], some 5, some 5⟩ 9 [] "n").1.envTTL =
        some 9) := by
  refine ⟨⟨by decide, ttl_refresh_amended.1 (-1) (by decide)⟩,
    ⟨by decide, ttl_refresh_amended.2.1 7 (by decide)⟩, ⟨by decide, ?_⟩, ⟨by decide, ?_⟩⟩
  · exact (ttl_refresh_amended.2.2.2.1 ⟨some ⟨[], "t"⟩, some 5, [], some 5, some 5⟩
      9 "d" [] "n").2.2 (by decide)
  · exact (ttl_refresh_amended.2.2.2.2 ⟨some ⟨[], "t"⟩, some 5, [], some 5, some 5⟩
      9 [] "n" (by decide) (by decide)).1

/-- C2 counterexample: with no embedding model, a non-empty query, and empty
vector and text results, the cascade still returns the recency rows — not
zero results as the claim states. -/
theorem search_cascade_counterexample :
    (⟨false, "zebra", none, [], [], ["recent-row"]⟩ : SearchInput).query ≠ "" ∧
    searchStage1 ⟨false, "zebra", none, [], [], ["recent-row"]⟩ = [] ∧
    (⟨false, "zebra", none, [], [], ["recent-row"]⟩ : SearchInput).textRows = [] ∧
    searchCascade ⟨false, "zebra", none, [], [], ["recent-row"]⟩ = ["recent-row"] := by
  refine ⟨?_, rfl, rfl, rfl⟩
  decide

/-- C2 amended: the vector stage returns its rows when it produced any; the
lexical stage returns its rows when the earlier results are empty, the query
is non-empty and it matched; the recency stage applies whenever the earlier
stages yielded zero rows — also for a non-empty query. -/
theorem search_cascade_amended : ∀ i : SearchInput,
    (searchStage1 i ≠ [] → searchCascade i = searchStage1 i) ∧
    (searchStage1 i = [] → i.query ≠ "" → i.textRows ≠ [] → searchCascade i = i.textRows) ∧
    (searchStage1 i = [] → (i.query = "" ∨ i.textRows = []) →
        searchCascade i = i.recentRows) := by
  intro i
  refine ⟨fun h1 => ?_, fun h1 hq ht => ?_, fun h1 hqt => ?_⟩
  · have he : (searchStage1 i).isEmpty = false := by
      simpa [List.isEmpty_iff] using h1
    simp [searchCascade, he]
  · have ht2 : i.textRows.isEmpty = false := by
      simpa [List.isEmpty_iff] using ht
    simp [searchCascade, h1, hq, ht2]
  · rcases hqt with hq | ht
    · simp [searchCascade, h1, hq]
    · by_cases hq : i.query = ""
      · simp [searchCascade, h1, hq]
      · simp [searchCascade, h1, hq, ht]

/-- Witness for the amended C2 at the three stages' representative inputs. -/
theorem search_cascade_amended_witness :
    (searchStage1 ⟨true, "q", some 3, ["v1"], ["t1"], ["r1"]⟩ ≠ [] ∧
      searchCascade ⟨true, "q", some 3, ["v1"], ["t1"], ["r1"]⟩ =
        searchStage1 ⟨true, "q", some 3, ["v1"], ["t1"], ["r1"]⟩) ∧
    (searchCascade ⟨false, "q", none, [], ["t1"], ["r1"]⟩ = ["t1"]) ∧
    (searchCascade ⟨false, "", none, [], ["t1"], ["r1"]⟩ = ["r1"]) := by
  refine ⟨⟨by decide, ?_⟩, ?_, ?_⟩
  · exact (search_cascade_amended ⟨true, "q", some 3, ["v1"], ["t1"], ["r1"]⟩).1 (by decide)
  · exact (search_cascade_amended ⟨false, "q", none, [], ["t1"], ["r1"]⟩).2.1 rfl
      (by decide) (by decide)
  · exact (search_cascade_amended ⟨false, "", none, [], ["t1"], ["r1"]⟩).2.2 rfl (Or.inl rfl)

end KAdk
